import Mathlib

/-!
Verification of the call-correlation RPC protocol of the nuxt-workers
repository.

The embedding models the runtime behaviour of the code that the two build
plugins emit:

* the worker-side dispatcher appended by WorkerTransformPlugin
  (src/plugins/unplugin.ts): receive a CallEnvelope, look the name up in
  the export table, invoke the function, post back exactly one
  ResponseEnvelope;
* the caller-side proxy module generated by WorkerPlugin for one worker
  file, i.e. one channel binding: the pending-call table `map`, the
  correlation counter `count`, the lazily created worker `_nuxt_worker`,
  the proxy functions, and the onmessage response router;
* the export registry built in getContents (src/module.ts): the
  `workerExports` and `reverseMap` tables with first-registration-wins
  duplicate handling;
* the gating of the transform in WorkerTransformPlugin.

Values carried across the boundary are modelled as natural numbers.
Worker functions either return a value or raise with a message string
(the awaited rejection caught by the generated try/catch), so they are
modelled as `List Value → Except String Value`.  JavaScript objects used
as keyed tables are modelled as association lists with
assign-or-overwrite semantics (`jsSet`).  A JavaScript promise settles at
most once: later calls of its resolve or reject functions are no-ops,
which the promise store models by first-write-wins (`settle`).
-/

/-- Values exchanged with the worker. -/
abbrev Value := Nat

/-- A worker-exported function: returns a value or raises with a message. -/
abbrev WorkerFn := List Value → Except String Value

/-- CallEnvelope `\x7b name, args, id \x7d` posted by the generated proxy. -/
structure CallEnvelope where
  name : String
  args : List Value
  id : Nat
deriving DecidableEq

/-- ResponseEnvelope posted by the dispatcher: `\x7b result, id \x7d` or
`\x7b error, id \x7d`.  The two optional fields model the presence or
absence of the corresponding object keys. -/
structure ResponseEnvelope where
  id : Nat
  result : Option Value
  error : Option String
deriving DecidableEq

/-- Lookup in an association list, first match wins; models reading a key
of a JavaScript object used as a table. -/
def alookup {α β : Type} [DecidableEq α] : List (α × β) → α → Option β
  | [], _ => none
  | p :: rest, k => if p.1 = k then some p.2 else alookup rest k

/-- Keyed assignment on an association list: overwrite the existing entry
if the key is present, otherwise append a fresh one; models
`obj[k] = v` on a JavaScript object. -/
def jsSet {α β : Type} [DecidableEq α] (m : List (α × β)) (k : α) (v : β) :
    List (α × β) :=
  if (alookup m k).isSome then
    m.map (fun p => if p.1 = k then (k, v) else p)
  else m ++ [(k, v)]

/-- The worker-side dispatcher appended to a worker file by
WorkerTransformPlugin (identical body for the Worker and SharedWorker
flavours, only the post target differs): look the name up in
`__worker_exports__`; if absent post a Function-not-found error with the
original id; otherwise invoke and post the awaited result, or the caught
message on a raise.  It is a total function: exactly one response per
call envelope and no escape of an exception. -/
def dispatch (workerExports : String → Option WorkerFn) (e : CallEnvelope) :
    ResponseEnvelope :=
  match workerExports e.name with
  | none => { id := e.id, result := none,
              error := some ("Function not found: " ++ e.name) }
  | some fn =>
    match fn e.args with
    | Except.ok v => { id := e.id, result := some v, error := none }
    | Except.error msg => { id := e.id, result := none, error := some msg }

/-- Settlement state of a JavaScript promise: resolved with the value of
the `result` key (possibly absent), or rejected with an Error carrying
the `error` string. -/
inductive Settlement
  | resolved (v : Option Value)
  | rejected (msg : String)
deriving DecidableEq

/-- First-write-wins settlement of the promise stored under key `k`:
models that calling resolve or reject on an already settled promise is a
no-op. -/
def pendingTo (s : Settlement) : Option Settlement → Option Settlement
  | none => some s
  | some t => some t

/-- Settle the promise stored under key `k` with `s`, leaving an already
settled promise untouched. -/
def settle (ps : List (Nat × Option Settlement)) (k : Nat) (s : Settlement) :
    List (Nat × Option Settlement) :=
  ps.map (fun p => if p.1 = k then (p.1, pendingTo s p.2) else p)

/-- Runtime state of one generated client-mode proxy module, i.e. one
channel binding: `worker` is `_nuxt_worker` (tagged with which instance
it holds), `instancesCreated` counts the runs of initWorker, `count` is
the correlation counter, `map` is the pending-call table (each entry
points at the promise created by the call with that id), `promises` is
the store of the promises the proxy calls returned, and `sent` records
the call envelopes posted to the worker in order. -/
structure ClientState where
  worker : Option Nat
  instancesCreated : Nat
  count : Nat
  map : List (Nat × Nat)
  promises : List (Nat × Option Settlement)
  sent : List CallEnvelope
deriving DecidableEq

/-- The state of a binding before any proxy call: empty table, counter at
zero, no worker yet. -/
def initState : ClientState :=
  { worker := none, instancesCreated := 0, count := 0,
    map := [], promises := [], sent := [] }

/-- One generated isolated-mode proxy call:
`_nuxt_worker ||= initWorker(); const id = count++;
return new Promise((resolve, reject) => \x7b map[id] = [resolve, reject];
target.postMessage(\x7b name, args, id \x7d); \x7d)`.
Creating the worker bumps `instancesCreated`; the fresh promise is stored
pending under the allocated id, and the table entry under the same id
holds its resolve and reject functions. -/
def proxyCall (name : String) (args : List Value) (st : ClientState) :
    ClientState :=
  let st1 :=
    match st.worker with
    | some _ => st
    | none =>
      { st with worker := some st.instancesCreated,
                instancesCreated := st.instancesCreated + 1 }
  { st1 with
    count := st1.count + 1,
    map := jsSet st1.map st1.count st1.count,
    promises := jsSet st1.promises st1.count none,
    sent := st1.sent ++ [{ name := name, args := args, id := st1.count }] }

/-- The generated onmessage response router:
`const [resolve, reject] = map[e.data.id];
if ("error" in e.data) reject(new Error(e.data.error));
else resolve(e.data.result);`
When the id is absent from the table the destructuring of `undefined`
raises a TypeError before any state is touched, modelled by the error
branch.  Note that the entry is never deleted from the table. -/
def handleMessage (st : ClientState) (e : ResponseEnvelope) :
    Except String ClientState :=
  match alookup st.map e.id with
  | none => Except.error "TypeError: map[e.data.id] is not iterable"
  | some p =>
    match e.error with
    | some msg =>
      Except.ok { st with promises := settle st.promises p (Settlement.rejected msg) }
    | none =>
      Except.ok { st with promises := settle st.promises p (Settlement.resolved e.result) }

/-- The settlement that the router gives to the promise matched by a
response envelope: rejection with the error string when the `error` key
is present, otherwise resolution with the `result` value. -/
def settlementOf (e : ResponseEnvelope) : Settlement :=
  match e.error with
  | some msg => Settlement.rejected msg
  | none => Settlement.resolved e.result

/-- An event on one binding: a proxy call made by the application, or a
response envelope delivered by the transport. -/
inductive Event
  | call (name : String) (args : List Value)
  | response (e : ResponseEnvelope)
deriving DecidableEq

/-- One step of the binding.  A response whose id is unknown makes the
handler raise; the raise happens before any mutation and an uncaught
exception in a message handler does not stop later messages from being
handled, so the state is unchanged and the binding keeps running. -/
def stepEvent (st : ClientState) (ev : Event) : ClientState :=
  match ev with
  | Event.call n a => proxyCall n a st
  | Event.response e =>
    match handleMessage st e with
    | Except.ok st1 => st1
    | Except.error _ => st

/-- Run a sequence of events on a binding. -/
def runEvents (st : ClientState) (evs : List Event) : ClientState :=
  evs.foldl stepEvent st

/-- Call events for a list of (name, args) pairs. -/
def mkCalls (cs : List (String × List Value)) : List Event :=
  cs.map (fun c => Event.call c.1 c.2)

/-- Response events for a list of response envelopes. -/
def mkResponses (rs : List ResponseEnvelope) : List Event :=
  rs.map Event.response

/-- True when delivering `e` to the binding makes the onmessage handler
raise a TypeError (id absent from the pending-call table). -/
def raisesTypeError (st : ClientState) (e : ResponseEnvelope) : Bool :=
  match handleMessage st e with
  | Except.error _ => true
  | Except.ok _ => false

/-- Execution mode of the generated virtual module. -/
inductive Mode
  | server
  | client
deriving DecidableEq

/-- Outcome of invoking a generated proxy: an immediate outcome in server
mode, or in client mode the id of the future the caller awaits. -/
inductive ProxyOutcome
  | immediate (r : Except String Value)
  | future (id : Nat)

/-- Invoking the proxy that WorkerPlugin generates for `name`.  In server
mode the body is
`const \x7b name: fn \x7d = await import(file); return fn(...args);` —
a direct call into the loaded module namespace; when the module lacks the
binding, applying `undefined` raises a TypeError.  In client mode the
body is the isolated-mode call of `proxyCall`, returning the promise
allocated under the fresh correlation id. -/
def proxyInvoke (mode : Mode) (moduleNs : String → Option WorkerFn)
    (name : String) (args : List Value) (st : ClientState) :
    ProxyOutcome × ClientState :=
  match mode with
  | Mode.server =>
    (match moduleNs name with
     | some fn => ProxyOutcome.immediate (fn args)
     | none => ProxyOutcome.immediate
         (Except.error "TypeError: fn is not a function"), st)
  | Mode.client => (ProxyOutcome.future st.count, proxyCall name args st)

/-- Specification-side definition of in-process execution, following the
words of the spec: the proxy performs a direct call into the
already-loaded module and returns or propagates its outcome unchanged. -/
def specDirectCall (moduleNs : String → Option WorkerFn) (name : String)
    (args : List Value) : Except String Value :=
  match moduleNs name with
  | some fn => fn args
  | none => Except.error "TypeError: fn is not a function"

/-- Model of `_id.replace(/\?.+$/, "")` on a list of characters: drop
everything from the first question mark that is followed by at least one
character.  Module ids contain no line terminators, so the dot of the
regular expression matches every following character. -/
def stripQueryAux : List Char → List Char
  | [] => []
  | c :: cs => if c = '?' ∧ cs ≠ [] then [] else c :: stripQueryAux cs

/-- Strip the query suffix from a module id, as the transform does. -/
def stripQuery (s : String) : String :=
  String.mk (stripQueryAux s.data)

/-- The replacement module that the transform produces in the non-trivial
case: the original code with the export keywords removed by the external
splicer, together with the flavour flag and the registered export list
whose dispatcher is appended. -/
structure TransformedModule where
  strippedCode : String
  isShared : Bool
  exports : List String
deriving DecidableEq

/-- The transform hook of WorkerTransformPlugin.  `removeExports` stands
for the external mlly and MagicString collaborator that deletes the
export keywords.  Returning `none` models the early returns of the hook:
the bundler then keeps the module source completely unchanged. -/
def transform (mode : Mode) (reverseMap : List (String × List String))
    (removeExports : String → String) (code : String) (idArg : String) :
    Option TransformedModule :=
  match mode with
  | Mode.server => none
  | Mode.client =>
    match alookup reverseMap (stripQuery idArg) with
    | none => none
    | some exps =>
      some { strippedCode := removeExports code,
             isShared := (stripQuery idArg).endsWith ".shared.ts",
             exports := exps }

/-- One reported export conflict: the warning names the duplicated
export, the file now being scanned and the file already owning it. -/
structure Conflict where
  name : String
  newModule : String
  existingModule : String
deriving DecidableEq

/-- The registry built by getContents in src/module.ts: `workerExports`
maps an export name to its owning file, `reverseMap` maps a file to its
export names in scan order. -/
structure ScanContext where
  workerExports : List (String × String)
  reverseMap : List (String × List String)
deriving DecidableEq

/-- The state of the registry right after the per-scan reset
`context.workerExports = Object.create(null);
context.reverseMap = Object.create(null);` with no warning issued yet. -/
def emptyScan : ScanContext × List Conflict :=
  ({ workerExports := [], reverseMap := [] }, [])

/-- `reverseMap[file] ||= []; reverseMap[file].push(e)`. -/
def reverseMapAdd (m : List (String × List String)) (file e : String) :
    List (String × List String) :=
  match alookup m file with
  | some l => jsSet m file (l ++ [e])
  | none => m ++ [(file, [e])]

/-- Registering one export name found in `file`: if the name is already a
key of `workerExports` warn about the duplicate and keep the existing
owner, otherwise record the owner and extend the reverse map. -/
def registerExport (acc : ScanContext × List Conflict) (file e : String) :
    ScanContext × List Conflict :=
  match alookup acc.1.workerExports e with
  | some existing =>
    (acc.1, acc.2 ++ [{ name := e, newModule := file,
                        existingModule := existing }])
  | none =>
    ({ workerExports := acc.1.workerExports ++ [(e, file)],
       reverseMap := reverseMapAdd acc.1.reverseMap file e }, acc.2)

/-- Registering every export name of one scanned file, in order. -/
def register (acc : ScanContext × List Conflict) (file : String)
    (names : List String) : ScanContext × List Conflict :=
  names.foldl (fun a e => registerExport a file e) acc

/-- Example worker function: sum of the arguments. -/
def sumFn : WorkerFn := fun args => Except.ok (args.foldl (fun a b => a + b) 0)

/-- Example worker function that raises. -/
def boomFn : WorkerFn := fun _ => Except.error "boom"

/-- Example export table of a worker module. -/
def exampleTable : String → Option WorkerFn :=
  fun n => if n = "sum" then some sumFn else
           if n = "boom" then some boomFn else none

/-- Characterization of the table components of a binding that has made
`n` calls from the initial state: counter at `n`, one pending-table entry
and one promise for each id below `n`. -/
def Canonical (st : ClientState) (n : Nat) : Prop :=
  st.count = n ∧
  st.map = (List.range n).map (fun i => (i, i)) ∧
  st.promises
    = (List.range n).map (fun i => (i, (none : Option Settlement)))

/-- Every key of the pending-call table and of the promise store is below
the correlation counter: ids are allocated from the counter, so new
entries never collide with existing ones. -/
def KeysBounded (st : ClientState) : Prop :=
  (∀ p ∈ st.map, p.1 < st.count) ∧ (∀ p ∈ st.promises, p.1 < st.count)

/-- The counter equals the number of envelopes sent so far, and the ids
of the sent envelopes are exactly 0, 1, ... in order. -/
def SentIds (st : ClientState) : Prop :=
  st.count = st.sent.length ∧
  st.sent.map (fun c => c.id) = List.range st.sent.length

/-! ## Basic lemmas about the table operations -/

theorem alookup_nil {α β : Type} [DecidableEq α] (k : α) :
    alookup ([] : List (α × β)) k = none := rfl

theorem alookup_cons {α β : Type} [DecidableEq α] (p : α × β)
    (m : List (α × β)) (k : α) :
    alookup (p :: m) k = if p.1 = k then some p.2 else alookup m k := rfl

theorem alookup_append {α β : Type} [DecidableEq α] (m l : List (α × β)) (k : α) :
    alookup (m ++ l) k =
      match alookup m k with
      | some v => some v
      | none => alookup l k := by
  induction m with
  | nil => simp [alookup]
  | cons p rest ih =>
    by_cases h : p.1 = k
    · simp [alookup, h]
    · simp [alookup, h, ih]

theorem alookup_append_some {α β : Type} [DecidableEq α] {m : List (α × β)}
    {k : α} {v : β} (l : List (α × β)) (h : alookup m k = some v) :
    alookup (m ++ l) k = some v := by
  rw [alookup_append, h]

theorem alookup_none_of_keys_lt {β : Type} {m : List (Nat × β)} {k : Nat}
    (h : ∀ p ∈ m, p.1 < k) : alookup m k = none := by
  induction m with
  | nil => rfl
  | cons p rest ih =>
    have hp : p.1 < k := h p (List.mem_cons_self p rest)
    have hk : ¬ p.1 = k := Nat.ne_of_lt hp
    simp only [alookup, hk, if_false]
    exact ih (fun q hq => h q (List.mem_cons_of_mem p hq))

theorem jsSet_of_none {α β : Type} [DecidableEq α] {m : List (α × β)} {k : α}
    (v : β) (h : alookup m k = none) : jsSet m k v = m ++ [(k, v)] := by
  simp [jsSet, h]

theorem alookup_range_map {β : Type} (f : Nat → β) (n j : Nat) :
    alookup ((List.range n).map (fun i => (i, f i))) j =
      if j < n then some (f j) else none := by
  induction n with
  | zero => simp [alookup]
  | succ n ih =>
    rw [List.range_succ, List.map_append, alookup_append, ih]
    by_cases h : j < n
    · simp [h, Nat.lt_succ_of_lt h]
    · by_cases he : n = j
      · subst he
        simp [alookup, Nat.lt_succ_self]
      · have : ¬ j < n + 1 := by omega
        simp [alookup, h, he, this]

theorem alookup_settle (ps : List (Nat × Option Settlement)) (k j : Nat)
    (s : Settlement) :
    alookup (settle ps k s) j =
      if j = k then (alookup ps j).map (pendingTo s) else alookup ps j := by
  induction ps with
  | nil => by_cases h : j = k <;> simp [settle, alookup, h]
  | cons p rest ih =>
    have hstep : settle (p :: rest) k s
        = (if p.1 = k then (p.1, pendingTo s p.2) else p) :: settle rest k s := rfl
    rw [hstep]
    by_cases hjk : j = k
    · subst hjk
      by_cases hpj : p.1 = j
      · simp [alookup, hpj]
      · simp [alookup, hpj, ih]
    · by_cases hpk : p.1 = k
      · have hpj : ¬ p.1 = j := by rw [hpk]; omega
        have hkj : ¬ k = j := by omega
        simp [alookup, hpk, hpj, hjk, hkj, ih]
      · by_cases hpj : p.1 = j
        · simp [alookup, hpk, hpj, hjk]
        · simp [alookup, hpk, hpj, hjk, ih]

theorem settle_keys {ps : List (Nat × Option Settlement)} {k : Nat}
    {s : Settlement} {c : Nat} (h : ∀ p ∈ ps, p.1 < c) :
    ∀ p ∈ settle ps k s, p.1 < c := by
  intro p hp
  rcases List.mem_map.mp hp with ⟨q, hq, hqe⟩
  have hlt := h q hq
  by_cases hk : q.1 = k
  · rw [if_pos hk] at hqe
    rw [← hqe]
    exact hlt
  · rw [if_neg hk] at hqe
    rw [← hqe]
    exact hlt

/-! ## Basic lemmas about the binding state machine -/

theorem runEvents_nil (st : ClientState) : runEvents st [] = st := rfl

theorem runEvents_cons (st : ClientState) (ev : Event) (evs : List Event) :
    runEvents st (ev :: evs) = runEvents (stepEvent st ev) evs := rfl

theorem runEvents_append (st : ClientState) (a b : List Event) :
    runEvents st (a ++ b) = runEvents (runEvents st a) b :=
  List.foldl_append stepEvent st a b

theorem proxyCall_components (name : String) (args : List Value)
    (st : ClientState) :
    (proxyCall name args st).count = st.count + 1 ∧
    (proxyCall name args st).map = jsSet st.map st.count st.count ∧
    (proxyCall name args st).promises = jsSet st.promises st.count none ∧
    (proxyCall name args st).sent
      = st.sent ++ [{ name := name, args := args, id := st.count }] := by
  cases h : st.worker <;> simp [proxyCall, h]

theorem handleMessage_found {st : ClientState} {e : ResponseEnvelope} {p : Nat}
    (h : alookup st.map e.id = some p) :
    handleMessage st e
      = Except.ok { st with promises := settle st.promises p (settlementOf e) } := by
  cases he : e.error <;> simp [handleMessage, h, settlementOf, he]

theorem handleMessage_notfound {st : ClientState} {e : ResponseEnvelope}
    (h : alookup st.map e.id = none) :
    handleMessage st e = Except.error "TypeError: map[e.data.id] is not iterable" := by
  simp [handleMessage, h]

theorem stepEvent_response_found {st : ClientState} {e : ResponseEnvelope} {p : Nat}
    (h : alookup st.map e.id = some p) :
    stepEvent st (Event.response e)
      = { st with promises := settle st.promises p (settlementOf e) } := by
  simp [stepEvent, handleMessage_found h]

theorem stepEvent_response_notfound {st : ClientState} {e : ResponseEnvelope}
    (h : alookup st.map e.id = none) :
    stepEvent st (Event.response e) = st := by
  simp [stepEvent, handleMessage_notfound h]

theorem stepEvent_response_frame (st : ClientState) (e : ResponseEnvelope) :
    (stepEvent st (Event.response e)).map = st.map ∧
    (stepEvent st (Event.response e)).count = st.count ∧
    (stepEvent st (Event.response e)).sent = st.sent ∧
    (stepEvent st (Event.response e)).worker = st.worker ∧
    (stepEvent st (Event.response e)).instancesCreated = st.instancesCreated := by
  cases h : alookup st.map e.id with
  | none => rw [stepEvent_response_notfound h]; exact ⟨rfl, rfl, rfl, rfl, rfl⟩
  | some p => rw [stepEvent_response_found h]; exact ⟨rfl, rfl, rfl, rfl, rfl⟩

theorem canonical_init : Canonical initState 0 := by
  refine ⟨rfl, rfl, rfl⟩

theorem canonical_call {st : ClientState} {n : Nat} (name : String)
    (args : List Value) (h : Canonical st n) :
    Canonical (proxyCall name args st) (n + 1) := by
  obtain ⟨hc, hm, hp⟩ := h
  obtain ⟨h1, h2, h3, _h4⟩ := proxyCall_components name args st
  have hmn : alookup st.map n = none := by
    rw [hm, alookup_range_map]
    simp
  have hpn : alookup st.promises n = none := by
    rw [hp, alookup_range_map]
    simp
  refine ⟨by rw [h1, hc], ?_, ?_⟩
  · rw [h2, hc, jsSet_of_none _ hmn, hm, List.range_succ, List.map_append]
    simp
  · rw [h3, hc, jsSet_of_none _ hpn, hp, List.range_succ, List.map_append]
    simp

theorem canonical_calls (cs : List (String × List Value)) :
    ∀ (st : ClientState) (n : Nat), Canonical st n →
      Canonical (runEvents st (mkCalls cs)) (n + cs.length) := by
  induction cs with
  | nil => intro st n h; simpa [mkCalls, runEvents] using h
  | cons c rest ih =>
    intro st n h
    have hstep : runEvents st (mkCalls (c :: rest))
        = runEvents (proxyCall c.1 c.2 st) (mkCalls rest) := rfl
    rw [hstep]
    have := ih (proxyCall c.1 c.2 st) (n + 1) (canonical_call c.1 c.2 h)
    have harith : n + 1 + rest.length = n + (rest.length + 1) := by omega
    rw [harith] at this
    simpa [List.length_cons] using this

/-! ## Delivery of responses -/

theorem settled_persists_responses (rs : List ResponseEnvelope) :
    ∀ (st : ClientState) (j : Nat) (s : Settlement),
      alookup st.promises j = some (some s) →
      alookup (runEvents st (mkResponses rs)).promises j = some (some s) := by
  induction rs with
  | nil => intro st j s h; simpa [mkResponses, runEvents] using h
  | cons e rest ih =>
    intro st j s h
    have hstep : runEvents st (mkResponses (e :: rest))
        = runEvents (stepEvent st (Event.response e)) (mkResponses rest) := rfl
    rw [hstep]
    apply ih
    cases hm : alookup st.map e.id with
    | none => rw [stepEvent_response_notfound hm]; exact h
    | some p =>
      rw [stepEvent_response_found hm]
      show alookup (settle st.promises p (settlementOf e)) j = some (some s)
      rw [alookup_settle]
      by_cases hj : j = p
      · rw [if_pos hj, h]
        rfl
      · rw [if_neg hj]
        exact h

theorem deliver_all (rs : List ResponseEnvelope) :
    ∀ (st : ClientState),
      (∀ r ∈ rs, alookup st.map r.id = some r.id) →
      (∀ r ∈ rs, alookup st.promises r.id = some none) →
      (rs.map (fun r => r.id)).Nodup →
      ∀ r ∈ rs,
        alookup (runEvents st (mkResponses rs)).promises r.id
          = some (some (settlementOf r)) := by
  induction rs with
  | nil => intro st _ _ _ r hr; cases hr
  | cons e rest ih =>
    intro st hmap hpend hnodup r hr
    have hme : alookup st.map e.id = some e.id :=
      hmap e (List.mem_cons_self e rest)
    have hpe : alookup st.promises e.id = some none :=
      hpend e (List.mem_cons_self e rest)
    have hstep : runEvents st (mkResponses (e :: rest))
        = runEvents (stepEvent st (Event.response e)) (mkResponses rest) := rfl
    have hst1 : stepEvent st (Event.response e)
        = { st with promises := settle st.promises e.id (settlementOf e) } :=
      stepEvent_response_found hme
    have hnd : e.id ∉ rest.map (fun r => r.id) ∧
        (rest.map (fun r => r.id)).Nodup := by
      have := hnodup
      rw [List.map_cons, List.nodup_cons] at this
      exact this
    rcases List.mem_cons.mp hr with he | hrest
    · subst he
      rw [hstep, hst1]
      apply settled_persists_responses
      show alookup (settle st.promises r.id (settlementOf r)) r.id
        = some (some (settlementOf r))
      rw [alookup_settle, if_pos rfl, hpe]
      rfl
    · have hne : r.id ≠ e.id := by
        intro hcon
        exact hnd.1 (hcon ▸ List.mem_map_of_mem (fun r => r.id) hrest)
      rw [hstep, hst1]
      apply ih
      · intro q hq
        exact hmap q (List.mem_cons_of_mem e hq)
      · intro q hq
        have hqe : q.id ≠ e.id := by
          intro hcon
          exact hnd.1 (hcon ▸ List.mem_map_of_mem (fun r => r.id) hq)
        show alookup (settle st.promises e.id (settlementOf e)) q.id = some none
        rw [alookup_settle, if_neg hqe]
        exact hpend q (List.mem_cons_of_mem e hq)
      · exact hnd.2
      · exact hrest

/-! ## Keys stay below the correlation counter -/

theorem keysBounded_init : KeysBounded initState := by
  constructor <;> intro p hp <;> cases hp

theorem keysBounded_step {st : ClientState} (ev : Event)
    (h : KeysBounded st) : KeysBounded (stepEvent st ev) := by
  cases ev with
  | call n a =>
    obtain ⟨hm, hp⟩ := h
    obtain ⟨h1, h2, h3, _h4⟩ := proxyCall_components n a st
    have hmn : alookup st.map st.count = none := alookup_none_of_keys_lt hm
    have hpn : alookup st.promises st.count = none := alookup_none_of_keys_lt hp
    constructor
    · intro p hpmem
      rw [show stepEvent st (Event.call n a) = proxyCall n a st from rfl] at hpmem ⊢
      rw [h1]
      rw [h2, jsSet_of_none _ hmn] at hpmem
      rcases List.mem_append.mp hpmem with hold | hnew
      · exact Nat.lt_succ_of_lt (hm p hold)
      · simp at hnew
        subst hnew
        exact Nat.lt_succ_self _
    · intro p hpmem
      rw [show stepEvent st (Event.call n a) = proxyCall n a st from rfl] at hpmem ⊢
      rw [h1]
      rw [h3, jsSet_of_none _ hpn] at hpmem
      rcases List.mem_append.mp hpmem with hold | hnew
      · exact Nat.lt_succ_of_lt (hp p hold)
      · simp at hnew
        subst hnew
        exact Nat.lt_succ_self _
  | response e =>
    obtain ⟨hm, hp⟩ := h
    cases hme : alookup st.map e.id with
    | none => rw [stepEvent_response_notfound hme]; exact ⟨hm, hp⟩
    | some p =>
      rw [stepEvent_response_found hme]
      exact ⟨hm, settle_keys hp⟩

theorem keysBounded_events (evs : List Event) :
    ∀ st : ClientState, KeysBounded st → KeysBounded (runEvents st evs) := by
  induction evs with
  | nil => intro st h; exact h
  | cons ev rest ih =>
    intro st h
    rw [runEvents_cons]
    exact ih _ (keysBounded_step ev h)

/-! ## Persistence of table entries and of settlements -/

theorem persist_step {st : ClientState} (ev : Event) {j p : Nat}
    {s : Settlement} (hkb : KeysBounded st)
    (hm : alookup st.map j = some p)
    (hp : alookup st.promises j = some (some s)) :
    alookup (stepEvent st ev).map j = some p ∧
    alookup (stepEvent st ev).promises j = some (some s) := by
  cases ev with
  | call n a =>
    obtain ⟨_h1, h2, h3, _h4⟩ := proxyCall_components n a st
    have hmn : alookup st.map st.count = none := alookup_none_of_keys_lt hkb.1
    have hpn : alookup st.promises st.count = none := alookup_none_of_keys_lt hkb.2
    constructor
    · rw [show stepEvent st (Event.call n a) = proxyCall n a st from rfl,
         h2, jsSet_of_none _ hmn]
      exact alookup_append_some _ hm
    · rw [show stepEvent st (Event.call n a) = proxyCall n a st from rfl,
         h3, jsSet_of_none _ hpn]
      exact alookup_append_some _ hp
  | response e =>
    cases hme : alookup st.map e.id with
    | none => rw [stepEvent_response_notfound hme]; exact ⟨hm, hp⟩
    | some q =>
      rw [stepEvent_response_found hme]
      refine ⟨hm, ?_⟩
      show alookup (settle st.promises q (settlementOf e)) j = some (some s)
      rw [alookup_settle]
      by_cases hj : j = q
      · rw [if_pos hj, hp]
        rfl
      · rw [if_neg hj]
        exact hp

theorem persist_events (evs : List Event) :
    ∀ (st : ClientState) (j p : Nat) (s : Settlement), KeysBounded st →
      alookup st.map j = some p →
      alookup st.promises j = some (some s) →
      alookup (runEvents st evs).map j = some p ∧
      alookup (runEvents st evs).promises j = some (some s) := by
  induction evs with
  | nil => intro st j p s _ hm hp; exact ⟨hm, hp⟩
  | cons ev rest ih =>
    intro st j p s hkb hm hp
    rw [runEvents_cons]
    obtain ⟨hm1, hp1⟩ := persist_step ev hkb hm hp
    exact ih _ j p s (keysBounded_step ev hkb) hm1 hp1

/-! ## Sent envelopes and the correlation counter -/

theorem sentIds_init : SentIds initState := ⟨rfl, rfl⟩

theorem sentIds_step {st : ClientState} (ev : Event) (h : SentIds st) :
    SentIds (stepEvent st ev) := by
  obtain ⟨hc, hs⟩ := h
  cases ev with
  | call n a =>
    obtain ⟨h1, _h2, _h3, h4⟩ := proxyCall_components n a st
    have hstep : stepEvent st (Event.call n a) = proxyCall n a st := rfl
    constructor
    · rw [hstep, h1, h4]
      simp [hc]
    · rw [hstep, h4, List.map_append, hs]
      simp [List.range_succ, hc]
  | response e =>
    obtain ⟨_hm, hcnt, hsent, _hw, _hi⟩ := stepEvent_response_frame st e
    exact ⟨by rw [hcnt, hsent, hc], by rw [hsent, hs]⟩

theorem sentIds_events (evs : List Event) :
    ∀ st : ClientState, SentIds st → SentIds (runEvents st evs) := by
  induction evs with
  | nil => intro st h; exact h
  | cons ev rest ih =>
    intro st h
    rw [runEvents_cons]
    exact ih _ (sentIds_step ev h)

/-! ## The lazy worker singleton -/

theorem proxyCall_worker (n : String) (a : List Value) (st : ClientState) :
    (proxyCall n a st).worker
      = (match st.worker with
         | some w => some w
         | none => some st.instancesCreated) ∧
    (proxyCall n a st).instancesCreated
      = (match st.worker with
         | some _ => st.instancesCreated
         | none => st.instancesCreated + 1) := by
  cases h : st.worker <;> simp [proxyCall, h]

theorem workerSome_step {st : ClientState} (ev : Event)
    (h : st.worker = some 0 ∧ st.instancesCreated = 1) :
    (stepEvent st ev).worker = some 0 ∧
    (stepEvent st ev).instancesCreated = 1 := by
  cases ev with
  | call n a =>
    obtain ⟨hw, hi⟩ := proxyCall_worker n a st
    have hstep : stepEvent st (Event.call n a) = proxyCall n a st := rfl
    rw [hstep, hw, hi, h.1]
    exact ⟨rfl, h.2⟩
  | response e =>
    obtain ⟨_hm, _hc, _hs, hw, hi⟩ := stepEvent_response_frame st e
    exact ⟨by rw [hw, h.1], by rw [hi, h.2]⟩

theorem workerSome_events (evs : List Event) :
    ∀ st : ClientState, st.worker = some 0 ∧ st.instancesCreated = 1 →
      (runEvents st evs).worker = some 0 ∧
      (runEvents st evs).instancesCreated = 1 := by
  induction evs with
  | nil => intro st h; exact h
  | cons ev rest ih =>
    intro st h
    rw [runEvents_cons]
    exact ih _ (workerSome_step ev h)

theorem workerFresh_events (evs : List Event) :
    ∀ st : ClientState, st.worker = none ∧ st.instancesCreated = 0 →
      (runEvents st evs).worker = none ∧
          (runEvents st evs).instancesCreated = 0 ∨
      (runEvents st evs).worker = some 0 ∧
          (runEvents st evs).instancesCreated = 1 := by
  induction evs with
  | nil => intro st h; exact Or.inl h
  | cons ev rest ih =>
    intro st h
    rw [runEvents_cons]
    cases ev with
    | call n a =>
      obtain ⟨hw, hi⟩ := proxyCall_worker n a st
      have hstep : stepEvent st (Event.call n a) = proxyCall n a st := rfl
      refine Or.inr ?_
      apply workerSome_events
      rw [hstep, hw, hi, h.1]
      exact ⟨by rw [h.2], by rw [h.2]⟩
    | response e =>
      obtain ⟨_hm, _hc, _hs, hw, hi⟩ := stepEvent_response_frame st e
      exact ih _ ⟨by rw [hw, h.1], by rw [hi, h.2]⟩

theorem worker_none_responses (rs : List ResponseEnvelope) :
    ∀ st : ClientState, st.worker = none →
      (runEvents st (mkResponses rs)).worker = none := by
  induction rs with
  | nil => intro st h; exact h
  | cons e rest ih =>
    intro st h
    have hstep : runEvents st (mkResponses (e :: rest))
        = runEvents (stepEvent st (Event.response e)) (mkResponses rest) := rfl
    rw [hstep]
    obtain ⟨_hm, _hc, _hs, hw, _hi⟩ := stepEvent_response_frame st e
    exact ih _ (by rw [hw, h])

theorem alookup_range_id (n j : Nat) :
    alookup ((List.range n).map (fun i => (i, i))) j
      = if j < n then some j else none := by
  simpa using alookup_range_map (fun i => i) n j

theorem alookup_range_none (n j : Nat) :
    alookup ((List.range n).map (fun i => (i, (none : Option Settlement)))) j
      = if j < n then some none else none := by
  simpa using alookup_range_map (fun _ => (none : Option Settlement)) n j

/-! ## Claim theorems -/

/-- C1: after any number of isolated-mode proxy calls on one binding —
each holding a distinct correlation id by construction — delivering the
response envelopes in an arbitrary order (pairwise distinct ids, each
matching an outstanding call) settles each future with exactly the
outcome carried by the envelope bearing the id of its own call. -/
theorem isolated_calls_settle_with_own_response
    (calls : List (String × List Value)) (rs : List ResponseEnvelope)
    (hnodup : (rs.map (fun r => r.id)).Nodup)
    (hlt : ∀ r ∈ rs, r.id < calls.length)
    (r : ResponseEnvelope) (hr : r ∈ rs) :
    alookup (runEvents (runEvents initState (mkCalls calls))
        (mkResponses rs)).promises r.id = some (some (settlementOf r)) := by
  have hcan : Canonical (runEvents initState (mkCalls calls)) calls.length := by
    have := canonical_calls calls initState 0 canonical_init
    simpa using this
  obtain ⟨_hc, hm, hp⟩ := hcan
  apply deliver_all
  · intro q hq
    rw [hm, alookup_range_id]
    simp [hlt q hq]
  · intro q hq
    rw [hp, alookup_range_none]
    simp [hlt q hq]
  · exact hnodup
  · exact hr

/-- Witness for C1: two calls, responses delivered in reverse order; the
future of the first call (id 0) resolves with the payload of the envelope
bearing id 0. -/
theorem isolated_calls_settle_with_own_response_witness :
    alookup (runEvents (runEvents initState
        (mkCalls [("sum", [2, 3]), ("mul", [4, 5])]))
        (mkResponses [{ id := 1, result := some 20, error := none },
                      { id := 0, result := some 5, error := none }])).promises 0
      = some (some (Settlement.resolved (some 5))) :=
  isolated_calls_settle_with_own_response
    [("sum", [2, 3]), ("mul", [4, 5])]
    [{ id := 1, result := some 20, error := none },
     { id := 0, result := some 5, error := none }]
    (by decide) (by decide)
    { id := 0, result := some 5, error := none } (by decide)

/-- C2 counterexample: the claim says the router removes the matched
entry from the pending-call table before settling.  The generated
handler never deletes from `map`: after one call (id 0) and the delivery
of its response, the table entry for id 0 is still present. -/
theorem response_router_removes_entry_counterexample :
    alookup (runEvents initState
        [Event.call "sum" [2, 3],
         Event.response { id := 0, result := some 5, error := none }]).map 0
      = some 0 := by decide

/-- C2 amended: the router does not remove the matched entry — table
entries persist for the lifetime of the binding — yet no pending call is
ever settled more than once: a promise keeps its first settlement, so a
second ResponseEnvelope carrying the same id re-invokes the stored
resolve or reject functions with no effect. -/
theorem pending_entry_persists_and_settles_once (evs0 evs : List Event)
    (j p : Nat) (s : Settlement)
    (hm : alookup (runEvents initState evs0).map j = some p)
    (hp : alookup (runEvents initState evs0).promises j = some (some s)) :
    alookup (runEvents initState (evs0 ++ evs)).map j = some p ∧
    alookup (runEvents initState (evs0 ++ evs)).promises j = some (some s) := by
  rw [runEvents_append]
  exact persist_events evs _ j p s
    (keysBounded_events evs0 initState keysBounded_init) hm hp

/-- Witness for C2 amended: a duplicate response for id 0 with a
different payload arrives after the first one; the table entry is still
there and the future keeps its first settlement. -/
theorem pending_entry_persists_and_settles_once_witness :
    alookup (runEvents initState
        ([Event.call "sum" [2, 3],
          Event.response { id := 0, result := some 5, error := none }] ++
         [Event.response { id := 0, result := some 7, error := none }])).map 0
      = some 0 ∧
    alookup (runEvents initState
        ([Event.call "sum" [2, 3],
          Event.response { id := 0, result := some 5, error := none }] ++
         [Event.response { id := 0, result := some 7, error := none }])).promises 0
      = some (some (Settlement.resolved (some 5))) :=
  pending_entry_persists_and_settles_once
    [Event.call "sum" [2, 3],
     Event.response { id := 0, result := some 5, error := none }]
    [Event.response { id := 0, result := some 7, error := none }]
    0 0 (Settlement.resolved (some 5)) (by decide) (by decide)

/-- C3 counterexample: the claim says a response whose id is unknown is
ignored silently with no exception.  On the generated handler the
destructuring `const [resolve, reject] = map[e.data.id]` of `undefined`
raises a TypeError: delivering id 5 to a fresh binding raises. -/
theorem unknown_id_ignored_silently_counterexample :
    raisesTypeError initState { id := 5, result := some 1, error := none }
      = true := rfl

/-- C3 amended: for a response whose id is not in the pending-call table
no future is settled and the binding keeps processing later messages
unchanged, but the handler does not stay silent: it raises a TypeError
(uncaught in the message handler), the raise happening before any state
mutation. -/
theorem unknown_id_throws_and_leaves_state (evs0 : List Event)
    (e : ResponseEnvelope)
    (h : alookup (runEvents initState evs0).map e.id = none) :
    raisesTypeError (runEvents initState evs0) e = true ∧
    stepEvent (runEvents initState evs0) (Event.response e)
      = runEvents initState evs0 := by
  constructor
  · simp [raisesTypeError, handleMessage_notfound h]
  · exact stepEvent_response_notfound h

/-- Witness for C3 amended: a foreign response with id 5 after a single
call with id 0. -/
theorem unknown_id_throws_and_leaves_state_witness :
    raisesTypeError (runEvents initState [Event.call "sum" [2, 3]])
        { id := 5, result := some 1, error := none } = true ∧
    stepEvent (runEvents initState [Event.call "sum" [2, 3]])
        (Event.response { id := 5, result := some 1, error := none })
      = runEvents initState [Event.call "sum" [2, 3]] :=
  unknown_id_throws_and_leaves_state [Event.call "sum" [2, 3]]
    { id := 5, result := some 1, error := none } (by decide)

/-- C4: for every CallEnvelope the dispatcher receives it produces
exactly one ResponseEnvelope — `dispatch` is a total function, a raise
in the invoked function is caught and the worker does not terminate —
carrying the original id, with exactly one of result and error present;
a successful awaited invocation yields its value as result, a raising
invocation yields its message as error. -/
theorem dispatcher_exactly_one_response
    (workerExports : String → Option WorkerFn) (e : CallEnvelope) :
    (dispatch workerExports e).id = e.id ∧
    ((dispatch workerExports e).result.isSome
      ↔ ¬ (dispatch workerExports e).error.isSome) ∧
    (∀ fn v, workerExports e.name = some fn → fn e.args = Except.ok v →
      dispatch workerExports e
        = { id := e.id, result := some v, error := none }) ∧
    (∀ fn msg, workerExports e.name = some fn → fn e.args = Except.error msg →
      dispatch workerExports e
        = { id := e.id, result := none, error := some msg }) := by
  refine ⟨?_, ?_, ?_, ?_⟩
  · cases h : workerExports e.name with
    | none => simp [dispatch, h]
    | some fn => cases hf : fn e.args <;> simp [dispatch, h, hf]
  · cases h : workerExports e.name with
    | none => simp [dispatch, h]
    | some fn => cases hf : fn e.args <;> simp [dispatch, h, hf]
  · intro fn v h hf
    simp [dispatch, h, hf]
  · intro fn msg h hf
    simp [dispatch, h, hf]

/-- Witness for C4: a successful call of sum and a raising call of boom,
each answered by exactly one envelope with the original id. -/
theorem dispatcher_exactly_one_response_witness :
    dispatch exampleTable { name := "sum", args := [2, 3], id := 7 }
      = { id := 7, result := some 5, error := none } ∧
    dispatch exampleTable { name := "boom", args := [], id := 8 }
      = { id := 8, result := none, error := some "boom" } :=
  ⟨(dispatcher_exactly_one_response exampleTable
      { name := "sum", args := [2, 3], id := 7 }).2.2.1 sumFn 5 rfl rfl,
   (dispatcher_exactly_one_response exampleTable
      { name := "boom", args := [], id := 8 }).2.2.2 boomFn "boom" rfl rfl⟩

/-- C5: a CallEnvelope naming a function absent from the export table
yields a ResponseEnvelope with the original id and the error string
"Function not found: " followed by the name — the dispatcher does not
raise — and delivering that response while the call is outstanding
rejects the future of that call with exactly that message. -/
theorem unknown_function_error_roundtrip
    (workerExports : String → Option WorkerFn) (e : CallEnvelope)
    (evs0 : List Event)
    (hname : workerExports e.name = none)
    (hm : alookup (runEvents initState evs0).map e.id = some e.id)
    (hp : alookup (runEvents initState evs0).promises e.id = some none) :
    dispatch workerExports e
      = { id := e.id, result := none,
          error := some ("Function not found: " ++ e.name) } ∧
    alookup (stepEvent (runEvents initState evs0)
        (Event.response (dispatch workerExports e))).promises e.id
      = some (some (Settlement.rejected ("Function not found: " ++ e.name))) := by
  have hd : dispatch workerExports e
      = { id := e.id, result := none,
          error := some ("Function not found: " ++ e.name) } := by
    simp [dispatch, hname]
  refine ⟨hd, ?_⟩
  rw [hd]
  have hm2 : alookup (runEvents initState evs0).map
      ({ id := e.id, result := none,
         error := some ("Function not found: " ++ e.name) } :
        ResponseEnvelope).id = some e.id := hm
  rw [stepEvent_response_found hm2]
  show alookup (settle (runEvents initState evs0).promises e.id
      (settlementOf ({ id := e.id, result := none,
                       error := some ("Function not found: " ++ e.name) } :
          ResponseEnvelope))) e.id
    = some (some (Settlement.rejected ("Function not found: " ++ e.name)))
  rw [alookup_settle]
  simp [hp, pendingTo, settlementOf]

/-- Witness for C5: calling the unregistered name missing on a worker
with an empty export table. -/
theorem unknown_function_error_roundtrip_witness :
    dispatch (fun _ => none) { name := "missing", args := [], id := 0 }
      = { id := 0, result := none,
          error := some ("Function not found: " ++ "missing") } ∧
    alookup (stepEvent (runEvents initState [Event.call "missing" []])
        (Event.response (dispatch (fun _ => none)
          { name := "missing", args := [], id := 0 }))).promises 0
      = some (some (Settlement.rejected ("Function not found: " ++ "missing"))) :=
  unknown_function_error_roundtrip (fun _ => none)
    { name := "missing", args := [], id := 0 }
    [Event.call "missing" []] rfl (by decide) (by decide)

/-- C6: the correlation counter of a binding starts at 0; every
isolated-mode proxy call sends the current counter value as its id and
increments the counter by exactly one; hence over any interleaving of
calls and responses the k-th call (counting from 0) uses id k, and no
id is ever allocated twice, even after earlier calls have settled. -/
theorem correlation_ids_strictly_increasing (evs : List Event) :
    initState.count = 0 ∧
    (∀ (st : ClientState) (n : String) (a : List Value),
      (proxyCall n a st).count = st.count + 1 ∧
      (proxyCall n a st).sent
        = st.sent ++ [{ name := n, args := a, id := st.count }]) ∧
    (runEvents initState evs).sent.map (fun c => c.id)
      = List.range (runEvents initState evs).sent.length := by
  refine ⟨rfl, ?_, ?_⟩
  · intro st n a
    obtain ⟨h1, _h2, _h3, h4⟩ := proxyCall_components n a st
    exact ⟨h1, h4⟩
  · exact (sentIds_events evs initState sentIds_init).2

/-- C7: the worker instance of a binding is created lazily — delivering
only responses never creates one — and the first proxy call creates
instance 0, which every later event reuses: the stored binding stays
instance 0 and exactly one instance is ever created, whatever happens
after the first call. -/
theorem worker_binding_lazy_singleton (rs : List ResponseEnvelope)
    (evs evsA : List Event) (n : String) (a : List Value) :
    (runEvents initState (mkResponses rs)).worker = none ∧
    (runEvents initState (evs ++ Event.call n a :: evsA)).worker = some 0 ∧
    (runEvents initState (evs ++ Event.call n a :: evsA)).instancesCreated
      = 1 := by
  refine ⟨worker_none_responses rs initState rfl, ?_⟩
  rw [runEvents_append, runEvents_cons]
  rcases workerFresh_events evs initState ⟨rfl, rfl⟩ with hfresh | hsome
  · obtain ⟨hw, hi⟩ := proxyCall_worker n a (runEvents initState evs)
    have hstep : stepEvent (runEvents initState evs) (Event.call n a)
        = proxyCall n a (runEvents initState evs) := rfl
    apply workerSome_events
    rw [hstep, hw, hi, hfresh.1]
    exact ⟨by rw [hfresh.2], by rw [hfresh.2]⟩
  · apply workerSome_events
    exact workerSome_step (Event.call n a) hsome

/-- C8: registering name x for module mA and then x for module mB within
one scan leaves x owned by mA and reports exactly one conflict naming
(x, mB, mA) — first registration wins, no overwrite; with a reset in
between, i.e. a fresh scan starting from cleared tables, x ends owned by
mB and no conflict is reported. -/
theorem export_registry_first_wins_and_reset (x mA mB : String) :
    alookup (register (register emptyScan mA [x]) mB [x]).1.workerExports x
      = some mA ∧
    (register (register emptyScan mA [x]) mB [x]).2
      = [{ name := x, newModule := mB, existingModule := mA }] ∧
    alookup (register emptyScan mB [x]).1.workerExports x = some mB ∧
    (register emptyScan mB [x]).2 = [] := by
  simp [register, registerExport, emptyScan, alookup, reverseMapAdd]

/-- C9: in server (in-process) mode the generated proxy performs a
direct call into the loaded module and returns or propagates its outcome
unchanged, leaving the binding state untouched — no envelope is sent, no
correlation id is allocated, no table entry is registered; in particular
the in-process proxy for sum with arguments [2, 3] returns 5. -/
theorem in_process_proxy_is_direct_call
    (moduleNs : String → Option WorkerFn) (name : String)
    (args : List Value) (st : ClientState) :
    proxyInvoke Mode.server moduleNs name args st
      = (ProxyOutcome.immediate (specDirectCall moduleNs name args), st) ∧
    proxyInvoke Mode.server exampleTable "sum" [2, 3] initState
      = (ProxyOutcome.immediate (Except.ok 5), initState) := by
  constructor
  · cases h : moduleNs name <;> simp [proxyInvoke, specDirectCall, h]
  · rfl

/-- C10: the transform is a no-op outside its domain: it returns no
replacement — the bundler then keeps the module source completely
unchanged — exactly when the build runs in server mode or the id with
its query suffix stripped is not a key of the reverse map; equivalently,
dispatcher code is appended only to registered worker files in a
client-mode build. -/
theorem transform_noop_outside_domain (mode : Mode)
    (reverseMap : List (String × List String))
    (removeExports : String → String) (code idArg : String) :
    transform mode reverseMap removeExports code idArg = none ↔
      (mode = Mode.server ∨ alookup reverseMap (stripQuery idArg) = none) := by
  cases mode with
  | server => simp [transform]
  | client =>
    cases h : alookup reverseMap (stripQuery idArg) with
    | none => simp [transform, h]
    | some exps => simp [transform, h]

/-- Witness for C10: in server mode the transform returns no
replacement. -/
theorem transform_noop_outside_domain_witness :
    transform Mode.server [] (fun s => s) "code" "file.ts" = none :=
  (transform_noop_outside_domain Mode.server [] (fun s => s) "code"
    "file.ts").mpr (Or.inl rfl)
